import Mathlib

/-!
# Verification of the `throttledDebounce` combinator

A shallow embedding of the event-coalescing combinator: a listener that
collapses bursts of events into a single "bounce" (commit) per event-chain,
driven by a sliding throttle window and an absolute max-delay deadline,
with an optional control hook that may split a chain early.

JavaScript closures identifying "the current chain" are modelled with an
explicit generation counter: each chain context carries a `gen`; the
per-chain `bounce` and `split` closures are modelled by functions that take
the generation they were created for and compare it with the live one.
Timer handles are modelled as the absolute time at which the armed timer is
scheduled to fire (`setTimeout(f, d)` at time `now` becomes `some (now+d)`);
`clearTimeout` becomes setting the handle to `none`, and a cleared handle
can never fire.  The downstream `callback` is modelled as appending an
immutable record of the finalized context (plus the virtual time of the
commit) to a log; the control hook is modelled through its one documented
side channel, a list of `split(includeCurrent)` requests issued during the
invocation, whose boolean results are recorded in `hookLog`.
-/

namespace ThrottledDebounce

/-- Event arguments: an ordered sequence of opaque values. -/
abbrev Args := List Nat

/-- The trigger tag stored into the context at commit time. -/
inductive Trigger where
  | throttle
  | debounce
  | control
  | global
  deriving DecidableEq, Repr

/-- The mutable chain context (one live instance per chain generation).
`gen` is the explicit generation identity standing in for JS object
identity (`context === thisContext`). -/
structure Ctx where
  gen : Nat
  callCount : Nat
  arguments : Option Args
  deriving DecidableEq, Repr

/-- An immutable record of one committed (bounced) chain: the finalized
context as passed to `options.callback`, together with its generation and
the virtual time at which the commit happened. -/
structure CommitRec where
  gen : Nat
  time : Int
  trigger : Trigger
  callCount : Nat
  arguments : Option Args
  deriving DecidableEq, Repr

/-- The closure state of one `throttledDebounce` instance. -/
structure State where
  /-- `maxDelayHandle`: absolute scheduled fire time of the armed max-delay
  timer, `none` when no timer is outstanding. -/
  maxDelayHandle : Option Int
  /-- `throttleHandle`: absolute scheduled fire time of the armed throttle
  timer, `none` when no timer is outstanding. -/
  throttleHandle : Option Int
  /-- `didBounce`: set while a bounce for the current chain is in flight. -/
  didBounce : Bool
  /-- `throttleTime`: the sliding throttle deadline. -/
  throttleTime : Option Int
  /-- `cancelled`: global cancel flag. -/
  cancelled : Bool
  /-- `context`: the live chain context. -/
  ctx : Ctx
  /-- `gotAnyEvent`: whether anything landed in the current chain. -/
  gotAnyEvent : Bool
  /-- The generation the `bounce` variable's closure is bound to (assigned
  together with a fresh context in `reset`). -/
  bounceVarGen : Nat
  /-- `splitEventChain`: split requested (scoped to a hook invocation, but
  deliberately NOT cleared by `reset`). -/
  splitEventChain : Bool
  /-- `includeLastEventOnSplitting`. -/
  includeLastEventOnSplitting : Bool
  /-- Generation counter backing fresh context identities. -/
  genCounter : Nat
  /-- Commit log, newest first: every `options.callback` invocation. -/
  log : List CommitRec
  /-- Per hook invocation (newest first), the results returned by each
  `split` call the hook made (JS `true` / falsy `undefined`). -/
  hookLog : List (List Bool)
  deriving DecidableEq, Repr

/-- Configuration options. `controlFunc` is modelled by its split-request
side channel: given the live context it yields the list of
`split(includeCurrent)` calls it performs, in order. -/
structure Config where
  throttleWait : Int
  maxDelay : Option Int
  controlFunc : Option (Ctx → List Bool)

/-- `reset()`: start a new event-chain.  Clears the per-chain flags and both
timers, allocates a fresh context (next generation) and re-binds the
`bounce` closure to it.  `splitEventChain` and
`includeLastEventOnSplitting` are untouched, exactly as in the source. -/
def reset (s : State) : State :=
  { s with
    gotAnyEvent := false
    throttleTime := none
    didBounce := false
    throttleHandle := none
    maxDelayHandle := none
    ctx := { gen := s.genCounter, callCount := 0, arguments := none }
    bounceVarGen := s.genCounter
    genCounter := s.genCounter + 1 }

/-- `triggerBounce(trigger)`: the at-most-once commit.  When neither
`didBounce` nor `cancelled` is set: record the finalized context (trigger
set, arguments frozen, split capability stripped) into the log — the
callback invocation — and `reset()`.  Returns JS `true`, else falsy. -/
def triggerBounce (now : Int) (trigger : Trigger) (s : State) : Bool × State :=
  if s.didBounce = false ∧ s.cancelled = false then
    (true, reset { s with
      didBounce := true
      log := { gen := s.ctx.gen, time := now, trigger := trigger,
               callCount := s.ctx.callCount,
               arguments := s.ctx.arguments } :: s.log })
  else
    (false, s)

/-- `contextBounce(trigger)`: the per-chain `bounce` closure created in
`reset`, bound to generation `g`; a cross-context call is a no-op. -/
def contextBounce (g : Nat) (now : Int) (trigger : Trigger) (s : State) :
    Bool × State :=
  if s.ctx.gen = g then triggerBounce now trigger s else (false, s)

/-- `context.split(includeCurrent)`: the split capability created in
`reset`, bound to generation `g`.  Accepted only when called from the still
current context with no split already requested; `includeCurrent === true`
additionally sets `includeLastEventOnSplitting`. -/
def split (g : Nat) (includeCurrent : Bool) (s : State) : Bool × State :=
  if s.ctx.gen = g ∧ s.splitEventChain = false then
    (true, { s with
      splitEventChain := true
      includeLastEventOnSplitting :=
        if includeCurrent then true else s.includeLastEventOnSplitting })
  else
    (false, s)

/-- `setMaxDelay()`: arm the max-delay timer for `options.maxDelay`. -/
def setMaxDelay (cfg : Config) (now : Int) (s : State) : State :=
  { s with maxDelayHandle := some (now + cfg.maxDelay.getD 0) }

/-- `maxDelayTimeoutFunc()`: the max-delay timer body — clear the handle
and call the current `bounce` with `'debounce'`. -/
def maxDelayTimeoutFunc (now : Int) (s : State) : State :=
  let s := { s with maxDelayHandle := none }
  (contextBounce s.bounceVarGen now .debounce s).2

/-- `createThrottleTimeout(overrideTime)`: arm the throttle timer.  An
override is clamped to `throttleWait`; a falsy override (absent or `0`)
falls back to `throttleWait` (`overrideTime || options.throttleWait`). -/
def createThrottleTimeout (cfg : Config) (overrideTime : Option Int)
    (now : Int) (s : State) : State :=
  let dur : Int :=
    match overrideTime with
    | some o =>
        let o' := min cfg.throttleWait o
        if o' ≠ 0 then o' else cfg.throttleWait
    | none => cfg.throttleWait
  { s with throttleHandle := some (now + dur) }

/-- `feedThrottle()`: on the chain's first event (no timer outstanding) set
`throttleTime = now + throttleWait` and arm the timer; on subsequent events
compute `passedTime = throttleWait - (throttleTime - now)` (with a JS
truthiness check on `throttleTime`): if positive, extend the deadline by it
("overtime"), otherwise call `bounce('throttle')`. -/
def feedThrottle (cfg : Config) (now : Int) (s : State) : State :=
  if s.throttleHandle = none then
    let s := { s with throttleTime := some (now + cfg.throttleWait) }
    createThrottleTimeout cfg none now s
  else
    let passedTime : Int :=
      match s.throttleTime with
      | some t => if t ≠ 0 then cfg.throttleWait - (t - now) else 0
      | none => 0
    if 0 < passedTime then
      { s with throttleTime := (s.throttleTime.map (· + passedTime)) }
    else
      (contextBounce s.bounceVarGen now .throttle s).2

/-- `feedThrottleTimeoutFunc()`: the throttle timer body — clear the
handle, compute `timeLeft = throttleTime - now`; if positive, re-arm for
`min(throttleWait, timeLeft)`, else call `bounce('throttle')`. -/
def feedThrottleTimeoutFunc (cfg : Config) (now : Int) (s : State) : State :=
  let s := { s with throttleHandle := none }
  match s.throttleTime with
  | some t =>
      if 0 < t - now then
        createThrottleTimeout cfg (some (t - now)) now s
      else
        (contextBounce s.bounceVarGen now .throttle s).2
  | none =>
      (contextBounce s.bounceVarGen now .throttle s).2

/-- Run the hook's `split` calls in order, collecting each result. -/
def runSplits (g : Nat) : List Bool → State → List Bool × State
  | [], s => ([], s)
  | inc :: rest, s =>
      let r := split g inc s
      let rs := runSplits g rest r.2
      (r.1 :: rs.1, rs.2)

/-- The tail of `listener` after the control-hook section: feed the
throttle scheduler and, when `maxDelay` is configured and no max-delay
timer is armed, arm one. -/
def listenerTail (cfg : Config) (now : Int) (s : State) : State :=
  let s := feedThrottle cfg now s
  if s.maxDelayHandle = none ∧ cfg.maxDelay ≠ none then
    setMaxDelay cfg now s
  else
    s

/-- The listener's ingress bookkeeping: mark `gotAnyEvent`, increment
`callCount` and store the incoming event's arguments. -/
def listenerIngress (s : State) (a : Args) : State :=
  { s with
    gotAnyEvent := true
    ctx := { s.ctx with
      callCount := s.ctx.callCount + 1
      arguments := some a } }

/-- Clear the split-request flags on entering a control-hook invocation. -/
def clearSplitFlags (s : State) : State :=
  { s with splitEventChain := false, includeLastEventOnSplitting := false }

/-- Record one hook invocation's split-call results. -/
def pushHookLog (results : List Bool) (s : State) : State :=
  { s with hookLog := results :: s.hookLog }

/-- Roll the current event back out of the context before a split that
excludes it: restore the pre-event arguments and decrement `callCount`. -/
def splitRollback (prevArgs : Option Args) (s : State) : State :=
  { s with ctx := { s.ctx with
    arguments := prevArgs
    callCount := s.ctx.callCount - 1 } }

/-- `listener(...)`, fuel-indexed to bound the re-injection recursion of
the split path (`listener.apply(null, arguments)`); `listener` itself is
`listenerFuel 2`, and `listenerFuel_ge_two` below shows any larger fuel
computes the same function, so no behaviour is cut off.

A no-op when `cancelled`; otherwise mark `gotAnyEvent`, bump `callCount`
and store the event's arguments (keeping the previous ones).  With a
control hook configured: save and clear the split flags, run the hook, and
if a split was requested in this invocation (and not merely left over from
an already-handled one), optionally roll the current event back out of the
context, `bounce('control')`, and — when the event was excluded — re-inject
it into the new chain and return without feeding the timers. -/
def listenerFuel (cfg : Config) : Nat → State → Int → Args → State
  | 0, s, _, _ => s
  | n + 1, s, now, a =>
      if s.cancelled then s
      else
        let previousArguments := s.ctx.arguments
        let s := listenerIngress s a
        match cfg.controlFunc with
        | none => listenerTail cfg now s
        | some hook =>
            let previousSplitEventChain := s.splitEventChain
            let s := clearSplitFlags s
            let r := runSplits s.ctx.gen (hook s.ctx) s
            let s := pushHookLog r.1 r.2
            if s.splitEventChain = true ∧ previousSplitEventChain = false then
              let s :=
                if s.includeLastEventOnSplitting = false then
                  splitRollback previousArguments s
                else s
              let s := (contextBounce s.bounceVarGen now .control s).2
              if s.includeLastEventOnSplitting = false then
                listenerFuel cfg n s now a
              else s
            else
              listenerTail cfg now s

/-- The listener entry point. -/
def listener (cfg : Config) (s : State) (now : Int) (a : Args) : State :=
  listenerFuel cfg 2 s now a

/-- `listener.cancel()`: set `cancelled` and fully `reset()`;
falsy no-op when already cancelled. -/
def cancel (s : State) : Bool × State :=
  if s.cancelled = false then
    (true, reset { s with cancelled := true })
  else
    (false, s)

/-- `listener.resume()`: clear `cancelled`; falsy no-op otherwise. -/
def resume (s : State) : Bool × State :=
  if s.cancelled = true then
    (true, { s with cancelled := false })
  else
    (false, s)

/-- `listener.bounce(force)` (`globalBounce`): commit with `'global'` when
forced or when the chain has any event; otherwise a falsy no-op. -/
def globalBounce (now : Int) (force : Bool) (s : State) : Bool × State :=
  if force = true ∨ s.gotAnyEvent = true then
    triggerBounce now .global s
  else
    (false, s)

/-- The state of a freshly constructed instance (`reset()` has run once). -/
def init : State :=
  reset { maxDelayHandle := none, throttleHandle := none, didBounce := false,
          throttleTime := none, cancelled := false,
          ctx := { gen := 0, callCount := 0, arguments := none },
          gotAnyEvent := false, bounceVarGen := 0, splitEventChain := false,
          includeLastEventOnSplitting := false, genCounter := 0,
          log := [], hookLog := [] }

/-! ## Operation-level step machine

One step per externally observable entry into the closure: a listener
call, a timer firing (only possible while the corresponding handle is
armed — `clearTimeout` prevents a cleared timer from ever firing), the
public `cancel` / `resume` / `bounce`, and calls through retained
generation-bound `bounce` / `split` references. -/

/-- An externally triggered operation on the instance. -/
inductive Op where
  | ev (now : Int) (a : Args)
  | throttleFire (now : Int)
  | maxFire (now : Int)
  | gBounce (now : Int) (force : Bool)
  | cBounce (g : Nat) (now : Int) (trigger : Trigger)
  | splitOp (g : Nat) (includeCurrent : Bool)
  | cancelOp
  | resumeOp
  deriving DecidableEq, Repr

/-- Apply one operation. -/
def step (cfg : Config) (s : State) : Op → State
  | .ev now a => listener cfg s now a
  | .throttleFire now =>
      match s.throttleHandle with
      | some _ => feedThrottleTimeoutFunc cfg now s
      | none => s
  | .maxFire now =>
      match s.maxDelayHandle with
      | some _ => maxDelayTimeoutFunc now s
      | none => s
  | .gBounce now force => (globalBounce now force s).2
  | .cBounce g now trigger => (contextBounce g now trigger s).2
  | .splitOp g inc => (split g inc s).2
  | .cancelOp => (cancel s).2
  | .resumeOp => (resume s).2

/-- Run a sequence of operations from a state. -/
def runFrom (cfg : Config) (s : State) (ops : List Op) : State :=
  ops.foldl (step cfg) s

/-- Run a sequence of operations from the freshly constructed instance. -/
def run (cfg : Config) (ops : List Op) : State :=
  runFrom cfg init ops

/-! ## Deterministic-timer driver

A discrete-event scheduler for the testable timing properties: armed
timers fire exactly at their scheduled absolute times, in deadline order
(the throttle timer first on a tie, since at chain start it is scheduled
before the max-delay timer). -/

/-- The earliest armed deadline, tagged `true` for the throttle timer. -/
def nextDeadline (s : State) : Option (Int × Bool) :=
  match s.throttleHandle, s.maxDelayHandle with
  | none, none => none
  | some t, none => some (t, true)
  | none, some m => some (m, false)
  | some t, some m => if t ≤ m then some (t, true) else some (m, false)

/-- Fire, in deadline order, every armed timer scheduled at or before
`upto` (fuel-bounded; the fuel is ample for every concrete scenario). -/
def runTimers (cfg : Config) : Nat → Int → State → State
  | 0, _, s => s
  | fuel + 1, upto, s =>
      match nextDeadline s with
      | some (d, isThrottle) =>
          if d ≤ upto then
            runTimers cfg fuel upto
              (if isThrottle then feedThrottleTimeoutFunc cfg d s
               else maxDelayTimeoutFunc d s)
          else s
      | none => s

/-- Deliver timed listener events in order, firing due timers before each,
then let every remaining timer scheduled at or before `endTime` fire. -/
def simulate (cfg : Config) (events : List (Int × Args)) (endTime : Int) :
    State :=
  runTimers cfg 1000 endTime
    (events.foldl
      (fun s e => listener cfg (runTimers cfg 1000 e.1 s) e.1 e.2) init)

/-- A control hook that calls `split(false)` exactly on the third event of
a chain. -/
def splitOnThird : Ctx → List Bool :=
  fun c => if c.callCount = 3 then [false] else []

/-! ## The chain-generation invariant

`Inv` holds at every operation boundary: no bounce is in flight, the
`bounce` closure is bound to the live context, an empty chain has an empty
context, the commit log's generations are strictly decreasing (newest
first) and all lie strictly below the live generation, which itself lies
below the generation counter.  `Ev s t` says `t` evolved from `s`: the
live generation never decreased and the log only grew, by records of
generations at least `s`'s. -/

/-- Invariant at operation boundaries. -/
structure Inv (s : State) : Prop where
  didBounce : s.didBounce = false
  bounceVar : s.bounceVarGen = s.ctx.gen
  empty : s.gotAnyEvent = false → s.ctx.callCount = 0 ∧ s.ctx.arguments = none
  chain : (s.log.map CommitRec.gen).Chain' (fun a b => b < a)
  below : ∀ r ∈ s.log, r.gen < s.ctx.gen
  counter : s.ctx.gen < s.genCounter

/-- Evolution: the live generation is monotone and the log only grows,
with new records stamped with generations not below the starting one. -/
def Ev (s t : State) : Prop :=
  s.ctx.gen ≤ t.ctx.gen ∧
  ∃ pre, t.log = pre ++ s.log ∧ ∀ r ∈ pre, s.ctx.gen ≤ r.gen

theorem ev_refl (s : State) : Ev s s :=
  ⟨le_refl _, [], by simp, by simp⟩

theorem ev_trans {s t u : State} (h1 : Ev s t) (h2 : Ev t u) : Ev s u := by
  obtain ⟨g1, p1, e1, m1⟩ := h1
  obtain ⟨g2, p2, e2, m2⟩ := h2
  refine ⟨le_trans g1 g2, p2 ++ p1, by simp [e2, e1], ?_⟩
  intro r hr
  rcases List.mem_append.1 hr with h | h
  · exact le_trans g1 (m2 r h)
  · exact m1 r h

/-- A state whose log only changed by `Ev` but whose context and
generation data are untouched evolves trivially. -/
theorem ev_of_same {s t : State} (hg : t.ctx.gen = s.ctx.gen)
    (hl : t.log = s.log) : Ev s t :=
  ⟨le_of_eq hg.symm, [], by simp [hl], by simp⟩

/-- Prepending a generation above everything in the log keeps the mapped
generations a strictly decreasing chain. -/
theorem chain_lt_cons {g : Nat} {l : List CommitRec}
    (hc : (l.map CommitRec.gen).Chain' (fun a b => b < a))
    (hb : ∀ r ∈ l, r.gen < g) :
    (g :: l.map CommitRec.gen).Chain' (fun a b => b < a) := by
  cases l with
  | nil => simp
  | cons r t =>
      rw [List.map_cons, List.chain'_cons]
      rw [List.map_cons] at hc
      exact ⟨hb r (by simp), hc⟩

theorem triggerBounce_sound {s : State} (h : Inv s) (now : Int)
    (trigger : Trigger) :
    Inv (triggerBounce now trigger s).2 ∧ Ev s (triggerBounce now trigger s).2 := by
  unfold triggerBounce
  by_cases hg : s.didBounce = false ∧ s.cancelled = false
  · rw [if_pos hg]
    refine ⟨⟨rfl, rfl, fun _ => ⟨rfl, rfl⟩, ?_, ?_, by simp [reset]⟩, ?_,
      ⟨s.ctx.gen, now, trigger, s.ctx.callCount, s.ctx.arguments⟩ :: [],
      by simp [reset], by simp⟩
    · simp only [reset, List.map_cons]
      exact chain_lt_cons h.chain h.below
    · intro r hr
      simp only [reset, List.mem_cons] at hr
      rcases hr with h' | h'
      · subst h'
        exact h.counter
      · exact lt_trans (h.below r h') h.counter
    · exact le_of_lt h.counter
  · rw [if_neg hg]
    exact ⟨h, ev_refl s⟩

theorem contextBounce_sound {s : State} (h : Inv s) (g : Nat) (now : Int)
    (trigger : Trigger) :
    Inv (contextBounce g now trigger s).2 ∧ Ev s (contextBounce g now trigger s).2 := by
  unfold contextBounce
  by_cases hg : s.ctx.gen = g
  · rw [if_pos hg]
    exact triggerBounce_sound h now trigger
  · rw [if_neg hg]
    exact ⟨h, ev_refl s⟩

theorem split_sound {s : State} (h : Inv s) (g : Nat) (inc : Bool) :
    Inv (split g inc s).2 ∧ Ev s (split g inc s).2 := by
  unfold split
  by_cases hg : s.ctx.gen = g ∧ s.splitEventChain = false
  · rw [if_pos hg]
    exact ⟨⟨h.didBounce, h.bounceVar, h.empty, h.chain, h.below, h.counter⟩,
      ev_of_same rfl rfl⟩
  · rw [if_neg hg]
    exact ⟨h, ev_refl s⟩

/-- A state transform that leaves the context, `didBounce`,
`bounceVarGen`, `gotAnyEvent`, the log and the generation counter alone
(e.g. timer or flag updates) preserves the invariant and evolves. -/
theorem sound_of_same {s t : State} (h : Inv s)
    (h1 : t.didBounce = s.didBounce) (h2 : t.bounceVarGen = s.bounceVarGen)
    (h3 : t.ctx = s.ctx) (h4 : t.gotAnyEvent = s.gotAnyEvent)
    (h5 : t.log = s.log) (h6 : t.genCounter = s.genCounter) :
    Inv t ∧ Ev s t := by
  refine ⟨⟨?_, ?_, ?_, ?_, ?_, ?_⟩, ev_of_same (by rw [h3]) h5⟩
  · rw [h1]; exact h.didBounce
  · rw [h2, h3]; exact h.bounceVar
  · rw [h4, h3]; exact h.empty
  · rw [h5]; exact h.chain
  · rw [h5, h3]; exact h.below
  · rw [h3, h6]; exact h.counter

/-- A state transform that may rewrite the context's data but keeps its
generation, in a chain that has seen an event, preserves the invariant. -/
theorem sound_of_ctx_data {s t : State} (h : Inv s)
    (h1 : t.didBounce = s.didBounce) (h2 : t.bounceVarGen = s.bounceVarGen)
    (h3 : t.ctx.gen = s.ctx.gen) (h4 : t.gotAnyEvent = true)
    (h5 : t.log = s.log) (h6 : t.genCounter = s.genCounter) :
    Inv t ∧ Ev s t := by
  refine ⟨⟨?_, ?_, ?_, ?_, ?_, ?_⟩, ev_of_same h3 h5⟩
  · rw [h1]; exact h.didBounce
  · rw [h2, h3]; exact h.bounceVar
  · rw [h4]; intro hf; cases hf
  · rw [h5]; exact h.chain
  · rw [h5, h3]; exact h.below
  · rw [h3, h6]; exact h.counter

theorem setMaxDelay_sound {s : State} (h : Inv s) (cfg : Config) (now : Int) :
    Inv (setMaxDelay cfg now s) ∧ Ev s (setMaxDelay cfg now s) :=
  sound_of_same h rfl rfl rfl rfl rfl rfl

theorem createThrottleTimeout_sound {s : State} (h : Inv s) (cfg : Config)
    (overrideTime : Option Int) (now : Int) :
    Inv (createThrottleTimeout cfg overrideTime now s) ∧
      Ev s (createThrottleTimeout cfg overrideTime now s) :=
  sound_of_same h rfl rfl rfl rfl rfl rfl

theorem feedThrottle_sound {s : State} (h : Inv s) (cfg : Config) (now : Int) :
    Inv (feedThrottle cfg now s) ∧ Ev s (feedThrottle cfg now s) := by
  unfold feedThrottle
  dsimp only
  split
  · have hmid : Inv { s with throttleTime := some (now + cfg.throttleWait) } ∧
        Ev s { s with throttleTime := some (now + cfg.throttleWait) } :=
      sound_of_same h rfl rfl rfl rfl rfl rfl
    refine ⟨(createThrottleTimeout_sound hmid.1 cfg none now).1, ?_⟩
    exact ev_trans hmid.2 (createThrottleTimeout_sound hmid.1 cfg none now).2
  · split
    · exact sound_of_same h rfl rfl rfl rfl rfl rfl
    · exact contextBounce_sound h s.bounceVarGen now .throttle

theorem feedThrottleTimeoutFunc_sound {s : State} (h : Inv s) (cfg : Config)
    (now : Int) :
    Inv (feedThrottleTimeoutFunc cfg now s) ∧
      Ev s (feedThrottleTimeoutFunc cfg now s) := by
  have h' : Inv { s with throttleHandle := none } ∧
      Ev s { s with throttleHandle := none } :=
    sound_of_same h rfl rfl rfl rfl rfl rfl
  unfold feedThrottleTimeoutFunc
  dsimp only
  split
  · split
    · refine ⟨(createThrottleTimeout_sound h'.1 cfg _ now).1, ?_⟩
      exact ev_trans h'.2 (createThrottleTimeout_sound h'.1 cfg _ now).2
    · refine ⟨(contextBounce_sound h'.1 _ now .throttle).1, ?_⟩
      exact ev_trans h'.2 (contextBounce_sound h'.1 _ now .throttle).2
  · refine ⟨(contextBounce_sound h'.1 _ now .throttle).1, ?_⟩
    exact ev_trans h'.2 (contextBounce_sound h'.1 _ now .throttle).2

theorem maxDelayTimeoutFunc_sound {s : State} (h : Inv s) (now : Int) :
    Inv (maxDelayTimeoutFunc now s) ∧ Ev s (maxDelayTimeoutFunc now s) := by
  have h' : Inv { s with maxDelayHandle := none } ∧
      Ev s { s with maxDelayHandle := none } :=
    sound_of_same h rfl rfl rfl rfl rfl rfl
  unfold maxDelayTimeoutFunc
  dsimp only
  refine ⟨(contextBounce_sound h'.1 _ now .debounce).1, ?_⟩
  exact ev_trans h'.2 (contextBounce_sound h'.1 _ now .debounce).2

theorem runSplits_sound {s : State} (h : Inv s) (g : Nat) (l : List Bool) :
    Inv (runSplits g l s).2 ∧ Ev s (runSplits g l s).2 := by
  induction l generalizing s with
  | nil => exact ⟨h, ev_refl s⟩
  | cons inc rest ih =>
      unfold runSplits
      dsimp only
      refine ⟨(ih (split_sound h g inc).1).1, ?_⟩
      exact ev_trans (split_sound h g inc).2 (ih (split_sound h g inc).1).2

/-- `runSplits` only touches the split-request flags. -/
theorem runSplits_fields (g : Nat) (l : List Bool) (s : State) :
    (runSplits g l s).2.gotAnyEvent = s.gotAnyEvent ∧
    (runSplits g l s).2.ctx = s.ctx ∧
    (runSplits g l s).2.didBounce = s.didBounce ∧
    (runSplits g l s).2.cancelled = s.cancelled ∧
    (runSplits g l s).2.log = s.log ∧
    (runSplits g l s).2.maxDelayHandle = s.maxDelayHandle := by
  induction l generalizing s with
  | nil => exact ⟨rfl, rfl, rfl, rfl, rfl, rfl⟩
  | cons inc rest ih =>
      unfold runSplits
      dsimp only
      have hs : (split g inc s).2.gotAnyEvent = s.gotAnyEvent ∧
          (split g inc s).2.ctx = s.ctx ∧
          (split g inc s).2.didBounce = s.didBounce ∧
          (split g inc s).2.cancelled = s.cancelled ∧
          (split g inc s).2.log = s.log ∧
          (split g inc s).2.maxDelayHandle = s.maxDelayHandle := by
        unfold split
        split
        · exact ⟨rfl, rfl, rfl, rfl, rfl, rfl⟩
        · exact ⟨rfl, rfl, rfl, rfl, rfl, rfl⟩
      obtain ⟨i1, i2, i3, i4, i5, i6⟩ := ih (split g inc s).2
      exact ⟨i1.trans hs.1, i2.trans hs.2.1, i3.trans hs.2.2.1,
        i4.trans hs.2.2.2.1, i5.trans hs.2.2.2.2.1, i6.trans hs.2.2.2.2.2⟩

theorem listenerTail_sound {s : State} (h : Inv s) (cfg : Config) (now : Int) :
    Inv (listenerTail cfg now s) ∧ Ev s (listenerTail cfg now s) := by
  unfold listenerTail
  dsimp only
  have hf := feedThrottle_sound h cfg now
  split
  · exact ⟨(setMaxDelay_sound hf.1 cfg now).1,
      ev_trans hf.2 (setMaxDelay_sound hf.1 cfg now).2⟩
  · exact hf

theorem listenerIngress_sound {s : State} (h : Inv s) (a : Args) :
    Inv (listenerIngress s a) ∧ Ev s (listenerIngress s a) :=
  sound_of_ctx_data h rfl rfl rfl rfl rfl rfl

/-- `listenerIngress` and the hook stages never clear `gotAnyEvent`. -/
theorem hookStages_gotAnyEvent (s : State) (a : Args) (hook : Ctx → List Bool) :
    (pushHookLog
      (runSplits (clearSplitFlags (listenerIngress s a)).ctx.gen
        (hook (clearSplitFlags (listenerIngress s a)).ctx)
        (clearSplitFlags (listenerIngress s a))).1
      (runSplits (clearSplitFlags (listenerIngress s a)).ctx.gen
        (hook (clearSplitFlags (listenerIngress s a)).ctx)
        (clearSplitFlags (listenerIngress s a))).2).gotAnyEvent = true :=
  (runSplits_fields _ _ _).1

/-- Soundness of the whole split-handling branch of the listener, for any
state `t` reached after the hook ran in a chain that has seen an event;
`hrec` abstracts the soundness of the re-injected listener call. -/
theorem splitBranch_sound (cfg : Config) (n : Nat) (now : Int) (a : Args)
    (prevArgs : Option Args) {t : State} (ht : Inv t)
    (hga : t.gotAnyEvent = true)
    (hrec : ∀ u : State, Inv u →
      Inv (listenerFuel cfg n u now a) ∧ Ev u (listenerFuel cfg n u now a)) :
    Inv (
      let t1 := if t.includeLastEventOnSplitting = false
                then splitRollback prevArgs t else t
      let t2 := (contextBounce t1.bounceVarGen now .control t1).2
      if t2.includeLastEventOnSplitting = false
      then listenerFuel cfg n t2 now a else t2) ∧
    Ev t (
      let t1 := if t.includeLastEventOnSplitting = false
                then splitRollback prevArgs t else t
      let t2 := (contextBounce t1.bounceVarGen now .control t1).2
      if t2.includeLastEventOnSplitting = false
      then listenerFuel cfg n t2 now a else t2) := by
  dsimp only
  by_cases hic : t.includeLastEventOnSplitting = false
  · rw [if_pos hic]
    have h1 : Inv (splitRollback prevArgs t) ∧ Ev t (splitRollback prevArgs t) :=
      sound_of_ctx_data ht rfl rfl rfl hga rfl rfl
    have h2 := contextBounce_sound h1.1
      (splitRollback prevArgs t).bounceVarGen now .control
    have hev2 := ev_trans h1.2 h2.2
    split
    · have h3 := hrec _ h2.1
      exact ⟨h3.1, ev_trans hev2 h3.2⟩
    · exact ⟨h2.1, hev2⟩
  · rw [if_neg hic]
    have h2 := contextBounce_sound ht t.bounceVarGen now .control
    split
    · have h3 := hrec _ h2.1
      exact ⟨h3.1, ev_trans h2.2 h3.2⟩
    · exact ⟨h2.1, h2.2⟩

theorem listenerFuel_sound {s : State} (h : Inv s) (cfg : Config) (n : Nat)
    (now : Int) (a : Args) :
    Inv (listenerFuel cfg n s now a) ∧ Ev s (listenerFuel cfg n s now a) := by
  induction n generalizing s with
  | zero => exact ⟨h, ev_refl s⟩
  | succ n ih =>
      unfold listenerFuel
      by_cases hc : s.cancelled
      · rw [if_pos hc]
        exact ⟨h, ev_refl s⟩
      · rw [if_neg hc]
        dsimp only
        have h1 := listenerIngress_sound h a
        cases hcf : cfg.controlFunc with
        | none =>
            refine ⟨(listenerTail_sound h1.1 cfg now).1, ?_⟩
            exact ev_trans h1.2 (listenerTail_sound h1.1 cfg now).2
        | some hook =>
            dsimp only
            have h2 : Inv (clearSplitFlags (listenerIngress s a)) ∧
                Ev (listenerIngress s a) (clearSplitFlags (listenerIngress s a)) :=
              sound_of_same h1.1 rfl rfl rfl rfl rfl rfl
            have h3 := runSplits_sound h2.1
              (clearSplitFlags (listenerIngress s a)).ctx.gen
              (hook (clearSplitFlags (listenerIngress s a)).ctx)
            have h4 : Inv (pushHookLog
                (runSplits (clearSplitFlags (listenerIngress s a)).ctx.gen
                  (hook (clearSplitFlags (listenerIngress s a)).ctx)
                  (clearSplitFlags (listenerIngress s a))).1
                (runSplits (clearSplitFlags (listenerIngress s a)).ctx.gen
                  (hook (clearSplitFlags (listenerIngress s a)).ctx)
                  (clearSplitFlags (listenerIngress s a))).2) ∧
                Ev (runSplits (clearSplitFlags (listenerIngress s a)).ctx.gen
                  (hook (clearSplitFlags (listenerIngress s a)).ctx)
                  (clearSplitFlags (listenerIngress s a))).2
                (pushHookLog
                  (runSplits (clearSplitFlags (listenerIngress s a)).ctx.gen
                    (hook (clearSplitFlags (listenerIngress s a)).ctx)
                    (clearSplitFlags (listenerIngress s a))).1
                  (runSplits (clearSplitFlags (listenerIngress s a)).ctx.gen
                    (hook (clearSplitFlags (listenerIngress s a)).ctx)
                    (clearSplitFlags (listenerIngress s a))).2) :=
              sound_of_same h3.1 rfl rfl rfl rfl rfl rfl
            have hup := ev_trans h1.2 (ev_trans h2.2 (ev_trans h3.2 h4.2))
            have hga := hookStages_gotAnyEvent s a hook
            split
            · have hsb := splitBranch_sound cfg n now a s.ctx.arguments h4.1 hga
                (fun u hu => ih hu)
              exact ⟨hsb.1, ev_trans hup hsb.2⟩
            · refine ⟨(listenerTail_sound h4.1 cfg now).1, ?_⟩
              exact ev_trans hup (listenerTail_sound h4.1 cfg now).2

theorem cancel_sound {s : State} (h : Inv s) :
    Inv (cancel s).2 ∧ Ev s (cancel s).2 := by
  unfold cancel
  split
  · have h' : Inv { s with cancelled := true } :=
      ⟨h.didBounce, h.bounceVar, h.empty, h.chain, h.below, h.counter⟩
    refine ⟨⟨rfl, rfl, fun _ => ⟨rfl, rfl⟩, h'.chain, ?_, by simp [reset]⟩,
      le_of_lt h.counter, [], by simp [reset], by simp⟩
    intro r hr
    exact lt_trans (h'.below r hr) h'.counter
  · exact ⟨h, ev_refl s⟩

theorem resume_sound {s : State} (h : Inv s) :
    Inv (resume s).2 ∧ Ev s (resume s).2 := by
  unfold resume
  split
  · exact sound_of_same h rfl rfl rfl rfl rfl rfl
  · exact ⟨h, ev_refl s⟩

theorem globalBounce_sound {s : State} (h : Inv s) (now : Int) (force : Bool) :
    Inv (globalBounce now force s).2 ∧ Ev s (globalBounce now force s).2 := by
  unfold globalBounce
  split
  · exact triggerBounce_sound h now .global
  · exact ⟨h, ev_refl s⟩

theorem step_sound {s : State} (h : Inv s) (cfg : Config) (op : Op) :
    Inv (step cfg s op) ∧ Ev s (step cfg s op) := by
  cases op with
  | ev now a => exact listenerFuel_sound h cfg 2 now a
  | throttleFire now =>
      unfold step
      dsimp only
      split
      · exact feedThrottleTimeoutFunc_sound h cfg now
      · exact ⟨h, ev_refl s⟩
  | maxFire now =>
      unfold step
      dsimp only
      split
      · exact maxDelayTimeoutFunc_sound h now
      · exact ⟨h, ev_refl s⟩
  | gBounce now force => exact globalBounce_sound h now force
  | cBounce g now trigger => exact contextBounce_sound h g now trigger
  | splitOp g inc => exact split_sound h g inc
  | cancelOp => exact cancel_sound h
  | resumeOp => exact resume_sound h

theorem runFrom_sound {s : State} (h : Inv s) (cfg : Config) (ops : List Op) :
    Inv (runFrom cfg s ops) ∧ Ev s (runFrom cfg s ops) := by
  induction ops generalizing s with
  | nil => exact ⟨h, ev_refl s⟩
  | cons op rest ih =>
      have h1 := step_sound h cfg op
      exact ⟨(ih h1.1).1, ev_trans h1.2 (ih h1.1).2⟩

theorem init_inv : Inv init := by
  refine ⟨rfl, rfl, fun _ => ⟨rfl, rfl⟩, ?_, ?_, ?_⟩ <;> simp [init, reset]

theorem run_inv (cfg : Config) (ops : List Op) : Inv (run cfg ops) :=
  (runFrom_sound init_inv cfg ops).1

/-! ## Commit-free executions leave the timers alone

Unconditional lemmas: the log only ever grows, and a call that did not
grow the log performed no commit, hence no `reset`, hence left an armed
max-delay timer untouched. -/

theorem append_eq_self_nil {l pre : List CommitRec} (h : pre ++ l = l) :
    pre = [] := by
  have hlen := congrArg List.length h
  simp only [List.length_append] at hlen
  exact List.eq_nil_of_length_eq_zero (by omega)

theorem triggerBounce_of_log_eq {s : State} {now : Int} {trigger : Trigger}
    (h : (triggerBounce now trigger s).2.log = s.log) :
    (triggerBounce now trigger s).2 = s := by
  unfold triggerBounce at h ⊢
  by_cases hg : s.didBounce = false ∧ s.cancelled = false
  · rw [if_pos hg] at h
    exact absurd h (List.cons_ne_self _ _)
  · rw [if_neg hg]

theorem contextBounce_of_log_eq {s : State} {g : Nat} {now : Int}
    {trigger : Trigger}
    (h : (contextBounce g now trigger s).2.log = s.log) :
    (contextBounce g now trigger s).2 = s := by
  unfold contextBounce at h ⊢
  by_cases hg : s.ctx.gen = g
  · rw [if_pos hg] at h ⊢
    exact triggerBounce_of_log_eq h
  · rw [if_neg hg]

theorem logExt_triggerBounce (now : Int) (trigger : Trigger) (s : State) :
    ∃ pre, (triggerBounce now trigger s).2.log = pre ++ s.log := by
  unfold triggerBounce
  split
  · exact ⟨[⟨s.ctx.gen, now, trigger, s.ctx.callCount, s.ctx.arguments⟩], rfl⟩
  · exact ⟨[], rfl⟩

theorem logExt_contextBounce (g : Nat) (now : Int) (trigger : Trigger)
    (s : State) :
    ∃ pre, (contextBounce g now trigger s).2.log = pre ++ s.log := by
  unfold contextBounce
  split
  · exact logExt_triggerBounce now trigger s
  · exact ⟨[], rfl⟩

theorem logExt_feedThrottle (cfg : Config) (now : Int) (s : State) :
    ∃ pre, (feedThrottle cfg now s).log = pre ++ s.log := by
  unfold feedThrottle
  dsimp only
  split
  · exact ⟨[], rfl⟩
  · split
    · exact ⟨[], rfl⟩
    · exact logExt_contextBounce _ now .throttle s

theorem logExt_listenerTail (cfg : Config) (now : Int) (s : State) :
    ∃ pre, (listenerTail cfg now s).log = pre ++ s.log := by
  unfold listenerTail
  dsimp only
  split
  · exact logExt_feedThrottle cfg now s
  · exact logExt_feedThrottle cfg now s

theorem logExt_listenerFuel (cfg : Config) (n : Nat) (now : Int) (a : Args) :
    ∀ s : State, ∃ pre, (listenerFuel cfg n s now a).log = pre ++ s.log := by
  induction n with
  | zero => exact fun s => ⟨[], rfl⟩
  | succ n ih =>
      intro s
      unfold listenerFuel
      by_cases hc : s.cancelled
      · rw [if_pos hc]
        exact ⟨[], rfl⟩
      · rw [if_neg hc]
        dsimp only
        cases hcf : cfg.controlFunc with
        | none => exact logExt_listenerTail cfg now _
        | some hook =>
            dsimp only
            generalize hR : runSplits (clearSplitFlags (listenerIngress s a)).ctx.gen
              (hook (clearSplitFlags (listenerIngress s a)).ctx)
              (clearSplitFlags (listenerIngress s a)) = r
            generalize hS3 : pushHookLog r.1 r.2 = s3
            have hl3 : s3.log = s.log := by
              rw [← hS3, ← hR]
              exact (runSplits_fields _ _ _).2.2.2.2.1
            split
            · generalize hT1 : (if s3.includeLastEventOnSplitting = false
                then splitRollback s.ctx.arguments s3 else s3) = t1
              have hl1 : t1.log = s3.log := by
                rw [← hT1]
                split <;> rfl
              generalize hT2 : (contextBounce t1.bounceVarGen now .control t1).2 = t2
              have hp1 : ∃ p1, t2.log = p1 ++ t1.log := by
                rw [← hT2]
                exact logExt_contextBounce _ now .control t1
              obtain ⟨p1, hp1⟩ := hp1
              split
              · obtain ⟨p2, hp2⟩ := ih t2
                exact ⟨p2 ++ p1, by rw [hp2, hp1, hl1, hl3, List.append_assoc]⟩
              · exact ⟨p1, by rw [hp1, hl1, hl3]⟩
            · obtain ⟨p, hp⟩ := logExt_listenerTail cfg now s3
              exact ⟨p, by rw [hp, hl3]⟩

theorem feedThrottle_maxDelay_of_log_eq (cfg : Config) (now : Int) (s : State)
    (h : (feedThrottle cfg now s).log = s.log) :
    (feedThrottle cfg now s).maxDelayHandle = s.maxDelayHandle := by
  unfold feedThrottle at h ⊢
  dsimp only at h ⊢
  revert h
  split
  · intro _
    rfl
  · split
    · intro _
      rfl
    · intro h
      rw [contextBounce_of_log_eq h]

theorem listenerTail_maxDelay_of_log_eq (cfg : Config) (now : Int) (s : State)
    (d : Int) (hm : s.maxDelayHandle = some d)
    (h : (listenerTail cfg now s).log = s.log) :
    (listenerTail cfg now s).maxDelayHandle = some d := by
  unfold listenerTail at h ⊢
  dsimp only at h ⊢
  have hfl : (feedThrottle cfg now s).log = s.log := by
    revert h
    split
    · intro h
      exact h
    · intro h
      exact h
  have hfm : (feedThrottle cfg now s).maxDelayHandle = some d :=
    (feedThrottle_maxDelay_of_log_eq cfg now s hfl).trans hm
  rw [if_neg (fun hco => Option.noConfusion (hfm.symm.trans hco.1))]
  exact hfm

theorem listenerFuel_maxDelay_of_log_eq (cfg : Config) (n : Nat) (now : Int)
    (a : Args) :
    ∀ (s : State) (d : Int), s.maxDelayHandle = some d →
      (listenerFuel cfg n s now a).log = s.log →
      (listenerFuel cfg n s now a).maxDelayHandle = some d := by
  induction n with
  | zero =>
      intro s d hm _
      exact hm
  | succ n ih =>
      intro s d hm h
      unfold listenerFuel at h ⊢
      by_cases hc : s.cancelled
      · rw [if_pos hc]
        exact hm
      · rw [if_neg hc] at h ⊢
        dsimp only at h ⊢
        cases hcf : cfg.controlFunc with
        | none =>
            rw [hcf] at h
            dsimp only at h ⊢
            exact listenerTail_maxDelay_of_log_eq cfg now _ d hm h
        | some hook =>
            rw [hcf] at h
            dsimp only at h ⊢
            revert h
            generalize hR : runSplits (clearSplitFlags (listenerIngress s a)).ctx.gen
              (hook (clearSplitFlags (listenerIngress s a)).ctx)
              (clearSplitFlags (listenerIngress s a)) = r
            generalize hS3 : pushHookLog r.1 r.2 = s3
            have hl3 : s3.log = s.log := by
              rw [← hS3, ← hR]
              exact (runSplits_fields _ _ _).2.2.2.2.1
            have hm3 : s3.maxDelayHandle = some d := by
              rw [← hS3, ← hR]
              exact ((runSplits_fields _ _ _).2.2.2.2.2).trans hm
            split
            · generalize hT1 : (if s3.includeLastEventOnSplitting = false
                then splitRollback s.ctx.arguments s3 else s3) = t1
              have hm1 : t1.maxDelayHandle = s3.maxDelayHandle := by
                rw [← hT1]
                split <;> rfl
              have hl1 : t1.log = s3.log := by
                rw [← hT1]
                split <;> rfl
              generalize hT2 : (contextBounce t1.bounceVarGen now .control t1).2 = t2
              have hp2 : ∃ p, t2.log = p ++ t1.log := by
                rw [← hT2]
                exact logExt_contextBounce _ now .control t1
              obtain ⟨p2x, hp2⟩ := hp2
              split
              · intro h
                obtain ⟨p3, hp3⟩ := logExt_listenerFuel cfg n now a t2
                have hx : (p3 ++ p2x) ++ t1.log = t1.log := by
                  rw [List.append_assoc, ← hp2, ← hp3, h, ← hl3, ← hl1]
                have hnil := List.append_eq_nil.mp (append_eq_self_nil hx)
                have ht2 : t2 = t1 := by
                  rw [← hT2]
                  refine contextBounce_of_log_eq ?_
                  rw [hT2, hp2, hnil.2, List.nil_append]
                have hfl : (listenerFuel cfg n t2 now a).log = t2.log := by
                  rw [hp3, hnil.1, List.nil_append]
                exact ih t2 d (by rw [ht2, hm1, hm3]) hfl
              · intro h
                have ht2 : t2 = t1 := by
                  rw [← hT2]
                  refine contextBounce_of_log_eq ?_
                  rw [hT2, h, ← hl3, ← hl1]
                rw [ht2, hm1, hm3]
            · intro h
              have h' : (listenerTail cfg now s3).log = s3.log := by
                rw [h, hl3]
              exact listenerTail_maxDelay_of_log_eq cfg now s3 d hm3 h'

/-! ## The re-injected invocation after a split

`reset` deliberately leaves `splitEventChain` set, so the listener call
that re-injects the triggering event always starts with the flag still
`true`; its hook's first `split` call is accepted by the capability (the
flags were just cleared for the invocation), yet the adapter compares
against `previousSplitEventChain = true` and never takes the split branch
again. -/

theorem contextBounce_splitEventChain (g : Nat) (now : Int) (trigger : Trigger)
    (u : State) :
    (contextBounce g now trigger u).2.splitEventChain = u.splitEventChain := by
  unfold contextBounce triggerBounce
  split
  · split
    · rfl
    · rfl
  · rfl

theorem contextBounce_cancelled (g : Nat) (now : Int) (trigger : Trigger)
    (u : State) :
    (contextBounce g now trigger u).2.cancelled = u.cancelled := by
  unfold contextBounce triggerBounce
  split
  · split
    · rfl
    · rfl
  · rfl

/-- While no split has been requested yet in the current hook invocation,
the first `split` call through the live context returns `true`. -/
theorem runSplits_head_true (u : State) (inc : Bool) (rest : List Bool)
    (h : u.splitEventChain = false) :
    (runSplits u.ctx.gen (inc :: rest) u).1.head? = some true := by
  have h1 : (split u.ctx.gen inc u).1 = true := by
    unfold split
    rw [if_pos ⟨rfl, h⟩]
  unfold runSplits
  dsimp only
  rw [h1]
  rfl

/-- A listener invocation entered with `splitEventChain` still set (as
every split re-injection is) can never take the split branch again: it
reduces to ingress, hook stage and timing tail, whatever the hook
requests. -/
theorem listenerFuel_no_resplit (cfg : Config) (hook : Ctx → List Bool)
    (n : Nat) (t : State) (now : Int) (a : Args)
    (hcf : cfg.controlFunc = some hook) (hsp : t.splitEventChain = true)
    (hc : t.cancelled = false) :
    listenerFuel cfg (n + 1) t now a =
      listenerTail cfg now
        (pushHookLog
          (runSplits (clearSplitFlags (listenerIngress t a)).ctx.gen
            (hook (clearSplitFlags (listenerIngress t a)).ctx)
            (clearSplitFlags (listenerIngress t a))).1
          (runSplits (clearSplitFlags (listenerIngress t a)).ctx.gen
            (hook (clearSplitFlags (listenerIngress t a)).ctx)
            (clearSplitFlags (listenerIngress t a))).2) := by
  have hpr : (listenerIngress t a).splitEventChain = true := hsp
  unfold listenerFuel
  rw [if_neg (by simp [hc])]
  dsimp only
  rw [hcf]
  dsimp only
  rw [if_neg (fun hco => by
    have h2 := hco.2
    rw [hpr] at h2
    cases h2)]

/-- Fuel adequacy, step: two units of fuel behave like any other two,
because the only recursive call (the split re-injection) starts with
`splitEventChain` still set and therefore never recurses further. -/
theorem listenerFuel_succ_succ (cfg : Config) (n m : Nat) (s : State)
    (now : Int) (a : Args) :
    listenerFuel cfg (n + 1 + 1) s now a = listenerFuel cfg (m + 1 + 1) s now a := by
  by_cases hc : s.cancelled
  · conv_lhs => rw [listenerFuel]
    conv_rhs => rw [listenerFuel]
    rw [if_pos hc, if_pos hc]
  · have hcF : s.cancelled = false := by simpa using hc
    conv_lhs => rw [listenerFuel]
    conv_rhs => rw [listenerFuel]
    rw [if_neg hc, if_neg hc]
    dsimp only
    cases hcf : cfg.controlFunc with
    | none => rfl
    | some hook =>
        dsimp only
        generalize hS3 : pushHookLog
          (runSplits (clearSplitFlags (listenerIngress s a)).ctx.gen
            (hook (clearSplitFlags (listenerIngress s a)).ctx)
            (clearSplitFlags (listenerIngress s a))).1
          (runSplits (clearSplitFlags (listenerIngress s a)).ctx.gen
            (hook (clearSplitFlags (listenerIngress s a)).ctx)
            (clearSplitFlags (listenerIngress s a))).2 = s3
        have hcs3 : s3.cancelled = false := by
          rw [← hS3]
          exact ((runSplits_fields _ _ _).2.2.2.1).trans hcF
        by_cases hbr : s3.splitEventChain = true ∧
            (listenerIngress s a).splitEventChain = false
        · rw [if_pos hbr, if_pos hbr]
          by_cases hinc : s3.includeLastEventOnSplitting = false
          · rw [if_pos hinc]
            generalize hT : (contextBounce
              (splitRollback s.ctx.arguments s3).bounceVarGen now .control
              (splitRollback s.ctx.arguments s3)).2 = t2
            have hsp2 : t2.splitEventChain = true := by
              rw [← hT, contextBounce_splitEventChain]
              exact hbr.1
            have hc2 : t2.cancelled = false := by
              rw [← hT, contextBounce_cancelled]
              exact hcs3
            by_cases hinc2 : t2.includeLastEventOnSplitting = false
            · rw [if_pos hinc2, if_pos hinc2]
              rw [listenerFuel_no_resplit cfg hook n t2 now a hcf hsp2 hc2,
                listenerFuel_no_resplit cfg hook m t2 now a hcf hsp2 hc2]
            · rw [if_neg hinc2, if_neg hinc2]
          · rw [if_neg hinc]
            generalize hT : (contextBounce s3.bounceVarGen now .control s3).2 = t2
            have hsp2 : t2.splitEventChain = true := by
              rw [← hT, contextBounce_splitEventChain]
              exact hbr.1
            have hc2 : t2.cancelled = false := by
              rw [← hT, contextBounce_cancelled]
              exact hcs3
            by_cases hinc2 : t2.includeLastEventOnSplitting = false
            · rw [if_pos hinc2, if_pos hinc2]
              rw [listenerFuel_no_resplit cfg hook n t2 now a hcf hsp2 hc2,
                listenerFuel_no_resplit cfg hook m t2 now a hcf hsp2 hc2]
            · rw [if_neg hinc2, if_neg hinc2]
        · rw [if_neg hbr, if_neg hbr]

/-- Fuel adequacy: any fuel of at least two computes the same function as
`listener` (`listenerFuel 2`), so the fuel bound cuts off no behaviour. -/
theorem listenerFuel_ge_two (cfg : Config) (n : Nat) (s : State) (now : Int)
    (a : Args) :
    listenerFuel cfg (n + 2) s now a = listener cfg s now a :=
  listenerFuel_succ_succ cfg n 0 s now a

/-! ## The claims -/

/-- Claim C1: for every sequence of listener calls, timer firings, bounce,
cancel and resume operations, the callback is invoked at most once per
chain generation (the commit log's generations are pairwise distinct); a
retained `bounce` or `split` reference of a superseded generation is a
no-op; and committed records are never mutated afterwards (any further
operations only prepend to the log). -/
theorem c1_at_most_one_commit_per_chain (cfg : Config) (ops more : List Op) :
    ((run cfg ops).log.map CommitRec.gen).Pairwise (fun x y => x ≠ y) ∧
    (∀ (g : Nat) (now : Int) (trigger : Trigger), g ≠ (run cfg ops).ctx.gen →
      step cfg (run cfg ops) (Op.cBounce g now trigger) = run cfg ops) ∧
    (∀ (g : Nat) (inc : Bool), g ≠ (run cfg ops).ctx.gen →
      step cfg (run cfg ops) (Op.splitOp g inc) = run cfg ops) ∧
    (∃ pre, (run cfg (ops ++ more)).log = pre ++ (run cfg ops).log) := by
  refine ⟨?_, ?_, ?_, ?_⟩
  · have hc := (run_inv cfg ops).chain
    have hp : ((run cfg ops).log.map CommitRec.gen).Pairwise (fun x y => y < x) := by
      rw [← List.chain'_iff_pairwise]
      exact hc
    exact hp.imp (fun hlt => (Nat.ne_of_lt hlt).symm)
  · intro g now trigger hg
    show (contextBounce g now trigger (run cfg ops)).2 = run cfg ops
    unfold contextBounce
    rw [if_neg (fun hh => hg hh.symm)]
  · intro g inc hg
    show (split g inc (run cfg ops)).2 = run cfg ops
    unfold split
    rw [if_neg (fun hh => hg hh.1.symm)]
  · have hsplit : run cfg (ops ++ more) = runFrom cfg (run cfg ops) more := by
      unfold run runFrom
      rw [List.foldl_append]
    rw [hsplit]
    obtain ⟨-, pre, hl, -⟩ := (runFrom_sound (run_inv cfg ops) cfg more).2
    exact ⟨pre, hl⟩

/-- Witness for C1, instantiated on a concrete run: a stale generation's
retained `bounce` and `split` references leave the state untouched. -/
theorem c1_witness :
    step ⟨100, none, none⟩ (run ⟨100, none, none⟩ [.ev 0 [1]])
        (Op.cBounce 5 7 .global) = run ⟨100, none, none⟩ [.ev 0 [1]] ∧
    step ⟨100, none, none⟩ (run ⟨100, none, none⟩ [.ev 0 [1]])
        (Op.splitOp 5 true) = run ⟨100, none, none⟩ [.ev 0 [1]] :=
  ⟨(c1_at_most_one_commit_per_chain ⟨100, none, none⟩ [.ev 0 [1]] []).2.1
      5 7 .global (by decide),
   (c1_at_most_one_commit_per_chain ⟨100, none, none⟩ [.ev 0 [1]] []).2.2.1
      5 true (by decide)⟩

/-- Counterexample to claim C2 as stated: with `throttleWait = 100` and
events at t = 0, 30, 60, 90 followed by quiet, no commit occurs at time
t = 100 — the only commit of the run happens at t = 190. -/
theorem c2_counterexample :
    (∀ r ∈ (simulate ⟨100, none, none⟩
        [(0, [10]), (30, [11]), (60, [12]), (90, [13])] 500).log, r.time ≠ 100) ∧
    ((simulate ⟨100, none, none⟩
        [(0, [10]), (30, [11]), (60, [12]), (90, [13])] 500).log.map
      CommitRec.time) = [190] := by
  decide

/-- Claim C2 as amended: the commit fires at t = 190 (`throttleWait` after
the last event, per the sliding window), with `trigger = throttle`,
`callCount = 4` and the t = 90 event's arguments. -/
theorem c2_commit_at_190 :
    (simulate ⟨100, none, none⟩
        [(0, [10]), (30, [11]), (60, [12]), (90, [13])] 500).log =
      [⟨0, 190, .throttle, 4, some [13]⟩] := by
  decide

/-- Counterexample to claim C3 as stated: with `throttleWait = 100` and
events at t = 0 and t = 30, the second event sees
`elapsed = throttleWait - (throttleDeadline - now) = 30 > 0`, yet no
commit is performed — the deadline is merely extended to 130. -/
theorem c3_counterexample :
    (0 : Int) <
      100 - (((run ⟨100, none, none⟩ [.ev 0 [1]]).throttleTime.getD 0) - 30) ∧
    (run ⟨100, none, none⟩ [.ev 0 [1], .ev 30 [2]]).log = [] ∧
    (run ⟨100, none, none⟩ [.ev 0 [1], .ev 30 [2]]).throttleTime = some 130 := by
  decide

/-- Claim C3 as amended: on a subsequent event while the throttle timer is
outstanding (with a non-zero recorded deadline `d`), with
`elapsed = throttleWait - (d - now)`: if `elapsed > 0` the deadline is
extended by `elapsed` and nothing else changes (no commit); if
`elapsed ≤ 0` an immediate commit with `trigger = throttle` is performed
(and the deadline is not extended). -/
theorem c3_amended (cfg : Config) (s : State) (now d h : Int)
    (hh : s.throttleHandle = some h) (ht : s.throttleTime = some d)
    (hd : d ≠ 0) :
    (0 < cfg.throttleWait - (d - now) →
      feedThrottle cfg now s =
        { s with throttleTime := some (d + (cfg.throttleWait - (d - now))) }) ∧
    (cfg.throttleWait - (d - now) ≤ 0 → s.didBounce = false →
      s.cancelled = false → s.bounceVarGen = s.ctx.gen →
      (feedThrottle cfg now s).log =
        ⟨s.ctx.gen, now, .throttle, s.ctx.callCount, s.ctx.arguments⟩ :: s.log) := by
  unfold feedThrottle
  rw [hh]
  rw [if_neg (fun hx => Option.noConfusion hx)]
  dsimp only
  rw [ht]
  dsimp only
  rw [if_pos hd]
  constructor
  · intro hlt
    rw [if_pos hlt]
    rfl
  · intro hle hdb hcan hbv
    rw [if_neg (not_lt.mpr hle)]
    unfold contextBounce
    rw [hbv, if_pos rfl]
    unfold triggerBounce
    rw [if_pos ⟨hdb, hcan⟩]
    rfl

/-- Witness for the amended C3 on a concrete state: the t = 30 event
extends the deadline without committing, while a same-millisecond second
event (elapsed = 0) commits immediately with `trigger = throttle`. -/
theorem c3_amended_witness :
    feedThrottle ⟨100, none, none⟩ 30 (run ⟨100, none, none⟩ [.ev 0 [1]]) =
      { run ⟨100, none, none⟩ [.ev 0 [1]] with
        throttleTime := some (100 + (100 - (100 - 30))) } ∧
    (feedThrottle ⟨100, none, none⟩ 0 (run ⟨100, none, none⟩ [.ev 0 [1]])).log =
      ⟨0, 0, .throttle, 1, some [1]⟩ :: (run ⟨100, none, none⟩ [.ev 0 [1]]).log :=
  ⟨(c3_amended ⟨100, none, none⟩ (run ⟨100, none, none⟩ [.ev 0 [1]]) 30 100 100
      (by decide) (by decide) (by decide)).1 (by decide),
   (c3_amended ⟨100, none, none⟩ (run ⟨100, none, none⟩ [.ev 0 [1]]) 0 100 100
      (by decide) (by decide) (by decide)).2 (by decide) (by decide) (by decide)
      (by decide)⟩

/-- Claim C5: every invalid or redundant call returns a falsy value and
leaves all state unchanged — `cancel()` when already cancelled, `resume()`
when not cancelled, `bounce()` with no force and no event in the current
chain, `split()` via a superseded (stale) context, and a second `split()`
within the same control-hook invocation. -/
theorem c5_invalid_calls_falsy_noop (s : State) (g : Nat) (inc inc' : Bool)
    (now : Int) :
    (s.cancelled = true → cancel s = (false, s)) ∧
    (s.cancelled = false → resume s = (false, s)) ∧
    (s.gotAnyEvent = false → globalBounce now false s = (false, s)) ∧
    (g ≠ s.ctx.gen → split g inc s = (false, s)) ∧
    ((split g inc s).1 = true →
      split g inc' (split g inc s).2 = (false, (split g inc s).2)) := by
  refine ⟨?_, ?_, ?_, ?_, ?_⟩
  · intro h
    unfold cancel
    rw [if_neg (by simp [h])]
  · intro h
    unfold resume
    rw [if_neg (by simp [h])]
  · intro h
    unfold globalBounce
    rw [if_neg (by simp [h])]
  · intro h
    unfold split
    rw [if_neg (fun hh => h hh.1.symm)]
  · intro h
    by_cases hg : s.ctx.gen = g ∧ s.splitEventChain = false
    · unfold split at h ⊢
      rw [if_pos hg] at h ⊢
      rw [if_neg (by simp)]
    · unfold split at h
      rw [if_neg hg] at h
      cases h

/-- Witness for C5: each redundant call, on a concrete state, returns
`false` and changes nothing. -/
theorem c5_witness :
    cancel (run ⟨100, none, none⟩ [.cancelOp]) =
      (false, run ⟨100, none, none⟩ [.cancelOp]) ∧
    resume init = (false, init) ∧
    globalBounce 0 false init = (false, init) ∧
    split 7 true init = (false, init) ∧
    split 0 false (split 0 true init).2 = (false, (split 0 true init).2) :=
  ⟨(c5_invalid_calls_falsy_noop (run ⟨100, none, none⟩ [.cancelOp]) 0 true true 0).1
      (by decide),
   (c5_invalid_calls_falsy_noop init 0 true true 0).2.1 (by decide),
   (c5_invalid_calls_falsy_noop init 0 true true 0).2.2.1 (by decide),
   (c5_invalid_calls_falsy_noop init 7 true true 0).2.2.2.1 (by decide),
   (c5_invalid_calls_falsy_noop init 0 true false 0).2.2.2.2 (by decide)⟩

/-- Claim C6: on any reachable non-cancelled state whose current chain has
seen no event, `bounce(true)` commits with `trigger = global` and
`callCount = 0` (empty arguments), while `bounce()` with no force is a
falsy no-op. -/
theorem c6_forced_bounce_empty_chain (cfg : Config) (ops : List Op) (now : Int)
    (h1 : (run cfg ops).cancelled = false)
    (h2 : (run cfg ops).gotAnyEvent = false) :
    globalBounce now true (run cfg ops) =
      (true, reset { run cfg ops with
        didBounce := true
        log := ⟨(run cfg ops).ctx.gen, now, .global, 0, none⟩ ::
          (run cfg ops).log }) ∧
    globalBounce now false (run cfg ops) = (false, run cfg ops) := by
  have inv := run_inv cfg ops
  obtain ⟨hcc, hargs⟩ := inv.empty h2
  constructor
  · unfold globalBounce
    rw [if_pos (Or.inl rfl)]
    unfold triggerBounce
    rw [if_pos ⟨inv.didBounce, h1⟩, hcc, hargs]
  · unfold globalBounce
    rw [if_neg (by simp [h2])]

/-- Witness for C6: on the freshly constructed instance, `bounce(true)`
commits an empty chain and `bounce()` is a falsy no-op. -/
theorem c6_witness :
    globalBounce 3 true (run ⟨100, none, none⟩ []) =
      (true, reset { run ⟨100, none, none⟩ [] with
        didBounce := true
        log := ⟨(run ⟨100, none, none⟩ []).ctx.gen, 3, .global, 0, none⟩ ::
          (run ⟨100, none, none⟩ []).log }) ∧
    globalBounce 3 false (run ⟨100, none, none⟩ []) =
      (false, run ⟨100, none, none⟩ []) :=
  c6_forced_bounce_empty_chain ⟨100, none, none⟩ [] 3 (by decide) (by decide)

/-- Claim C9: with `maxDelay` configured, two events sharing the same
timestamp make `feedThrottle`'s missed-deadline branch commit during
listener processing, after which the listener arms a max-delay timer for
the fresh, empty chain; when that timer fires, the callback is invoked
with `callCount = 0`, no arguments and `trigger = debounce`, although no
event landed in that chain and `bounce(true)` was never called. -/
theorem c9_phantom_empty_debounce_commit :
    (simulate ⟨100, some 3000, none⟩ [(0, [1]), (0, [2])] 3000).log =
      [⟨1, 3000, .debounce, 0, none⟩,
       ⟨0, 0, .throttle, 2, some [2]⟩] := by
  decide

/-- Claim C10: whenever a chain is split with `includeCurrent = false`
and the triggering event is re-injected, the state entering the
re-injected listener invocation still has the split-request flag set (the
`control` bounce's `reset` does not clear it — first conjunct, for every
rolled-back state); consequently every such re-injected invocation — for
every hook, fuel, state with the flag set, time and arguments — never
takes the split branch again and reduces to the plain ingress/hook/timing
path, continuing the new chain as if no split had been requested (second
conjunct), even though a `split()` call made by the hook during that
invocation is accepted by the capability and returns `true` (third
conjunct). -/
theorem c10_reinjected_split_true_but_ignored (cfg : Config)
    (hook : Ctx → List Bool) (n : Nat) (t : State) (now : Int) (a : Args)
    (hcf : cfg.controlFunc = some hook) (hsp : t.splitEventChain = true)
    (hc : t.cancelled = false) :
    (∀ (s3 : State) (prevArgs : Option Args) (g : Nat) (now' : Int),
      s3.splitEventChain = true →
      (contextBounce g now' .control
        (splitRollback prevArgs s3)).2.splitEventChain = true) ∧
    listenerFuel cfg (n + 1) t now a =
      listenerTail cfg now
        (pushHookLog
          (runSplits (clearSplitFlags (listenerIngress t a)).ctx.gen
            (hook (clearSplitFlags (listenerIngress t a)).ctx)
            (clearSplitFlags (listenerIngress t a))).1
          (runSplits (clearSplitFlags (listenerIngress t a)).ctx.gen
            (hook (clearSplitFlags (listenerIngress t a)).ctx)
            (clearSplitFlags (listenerIngress t a))).2) ∧
    (∀ (inc : Bool) (rest : List Bool),
      hook (clearSplitFlags (listenerIngress t a)).ctx = inc :: rest →
      (runSplits (clearSplitFlags (listenerIngress t a)).ctx.gen
        (hook (clearSplitFlags (listenerIngress t a)).ctx)
        (clearSplitFlags (listenerIngress t a))).1.head? = some true) := by
  refine ⟨?_, ?_, ?_⟩
  · intro s3 prevArgs g now' h3
    rw [contextBounce_splitEventChain]
    exact h3
  · exact listenerFuel_no_resplit cfg hook n t now a hcf hsp hc
  · intro inc rest heq
    rw [heq]
    exact runSplits_head_true (clearSplitFlags (listenerIngress t a)) inc rest rfl

/-- Witness for C10: a listener invocation entered right after an
`includeCurrent = false` split (flag still set) with an always-splitting
hook reduces to the no-split path, and the hook's `split()` call in it
returned `true`. -/
theorem c10_witness :
    listenerFuel ⟨100, none, some (fun _ => [false])⟩ 2
        (split 0 false init).2 0 [7] =
      listenerTail ⟨100, none, some (fun _ => [false])⟩ 0
        (pushHookLog
          (runSplits
            (clearSplitFlags (listenerIngress (split 0 false init).2 [7])).ctx.gen
            [false]
            (clearSplitFlags (listenerIngress (split 0 false init).2 [7]))).1
          (runSplits
            (clearSplitFlags (listenerIngress (split 0 false init).2 [7])).ctx.gen
            [false]
            (clearSplitFlags (listenerIngress (split 0 false init).2 [7]))).2) ∧
    (runSplits
      (clearSplitFlags (listenerIngress (split 0 false init).2 [7])).ctx.gen
      [false]
      (clearSplitFlags (listenerIngress (split 0 false init).2 [7]))).1.head? =
      some true :=
  ⟨(c10_reinjected_split_true_but_ignored ⟨100, none, some (fun _ => [false])⟩
      (fun _ => [false]) 1 (split 0 false init).2 0 [7] rfl (by decide)
      (by decide)).2.1,
   (c10_reinjected_split_true_but_ignored ⟨100, none, some (fun _ => [false])⟩
      (fun _ => [false]) 1 (split 0 false init).2 0 [7] rfl (by decide)
      (by decide)).2.2 false [] rfl⟩

/-- Claim C4: for every chain whose control hook calls `split(false)` on
the 3rd event (any throttle wait, any event times with the first two in
order, any arguments), the chain is committed with `trigger = control`,
`callCount = 2` and the 2nd event's arguments, and a new chain starts
immediately whose first event is the 3rd event's arguments, so the new
context has `callCount = 1`. -/
theorem c4_split_false_on_third_event (w t1 t2 t3 : Int) (a1 a2 a3 : Args)
    (hw : 0 < w) (h1 : 0 ≤ t1) (h12 : t1 < t2) :
    run ⟨w, none, some splitOnThird⟩ [.ev t1 a1, .ev t2 a2, .ev t3 a3] =
      { maxDelayHandle := none, throttleHandle := some (t3 + w),
        didBounce := false, throttleTime := some (t3 + w), cancelled := false,
        ctx := { gen := 1, callCount := 1, arguments := some a3 },
        gotAnyEvent := true, bounceVarGen := 1, splitEventChain := false,
        includeLastEventOnSplitting := false, genCounter := 2,
        log := [⟨0, t3, .control, 2, some a2⟩],
        hookLog := [[], [true], [], []] } := by
  have e1 : step ⟨w, none, some splitOnThird⟩ init (.ev t1 a1) =
      { maxDelayHandle := none, throttleHandle := some (t1 + w),
        didBounce := false, throttleTime := some (t1 + w), cancelled := false,
        ctx := { gen := 0, callCount := 1, arguments := some a1 },
        gotAnyEvent := true, bounceVarGen := 0, splitEventChain := false,
        includeLastEventOnSplitting := false, genCounter := 1,
        log := [], hookLog := [[]] } := rfl
  have e2 : step ⟨w, none, some splitOnThird⟩
      { maxDelayHandle := none, throttleHandle := some (t1 + w),
        didBounce := false, throttleTime := some (t1 + w), cancelled := false,
        ctx := { gen := 0, callCount := 1, arguments := some a1 },
        gotAnyEvent := true, bounceVarGen := 0, splitEventChain := false,
        includeLastEventOnSplitting := false, genCounter := 1,
        log := [], hookLog := [[]] } (.ev t2 a2) =
      { maxDelayHandle := none, throttleHandle := some (t1 + w),
        didBounce := false, throttleTime := some (t2 + w), cancelled := false,
        ctx := { gen := 0, callCount := 2, arguments := some a2 },
        gotAnyEvent := true, bounceVarGen := 0, splitEventChain := false,
        includeLastEventOnSplitting := false, genCounter := 1,
        log := [], hookLog := [[], []] } := by
    have hne : t1 + w ≠ 0 := by omega
    have hpos : (0 : Int) < w - (t1 + w - t2) := by omega
    simp [step, listener, listenerFuel, listenerIngress, clearSplitFlags,
      pushHookLog, runSplits, listenerTail, feedThrottle, createThrottleTimeout,
      setMaxDelay, splitRollback, contextBounce, triggerBounce, reset, split,
      splitOnThird, hne, hpos]
    omega
  have e3 : step ⟨w, none, some splitOnThird⟩
      { maxDelayHandle := none, throttleHandle := some (t1 + w),
        didBounce := false, throttleTime := some (t2 + w), cancelled := false,
        ctx := { gen := 0, callCount := 2, arguments := some a2 },
        gotAnyEvent := true, bounceVarGen := 0, splitEventChain := false,
        includeLastEventOnSplitting := false, genCounter := 1,
        log := [], hookLog := [[], []] } (.ev t3 a3) =
      { maxDelayHandle := none, throttleHandle := some (t3 + w),
        didBounce := false, throttleTime := some (t3 + w), cancelled := false,
        ctx := { gen := 1, callCount := 1, arguments := some a3 },
        gotAnyEvent := true, bounceVarGen := 1, splitEventChain := false,
        includeLastEventOnSplitting := false, genCounter := 2,
        log := [⟨0, t3, .control, 2, some a2⟩],
        hookLog := [[], [true], [], []] } := rfl
  show step ⟨w, none, some splitOnThird⟩
      (step ⟨w, none, some splitOnThird⟩
        (step ⟨w, none, some splitOnThird⟩ init (.ev t1 a1)) (.ev t2 a2))
      (.ev t3 a3) = _
  rw [e1, e2, e3]

/-- Witness for C4 at concrete times and arguments. -/
theorem c4_witness :
    run ⟨100, none, some splitOnThird⟩ [.ev 0 [1], .ev 10 [2], .ev 20 [3]] =
      { maxDelayHandle := none, throttleHandle := some 120, didBounce := false,
        throttleTime := some 120, cancelled := false,
        ctx := { gen := 1, callCount := 1, arguments := some [3] },
        gotAnyEvent := true, bounceVarGen := 1, splitEventChain := false,
        includeLastEventOnSplitting := false, genCounter := 2,
        log := [⟨0, 20, .control, 2, some [2]⟩],
        hookLog := [[], [true], [], []] } :=
  c4_split_false_on_third_event 100 0 10 20 [1] [2] [3] (by decide) (by decide)
    (by decide)

/-- When no throttle timer is armed, the listener tail only arms timers
and leaves the context untouched. -/
theorem listenerTail_ctx_of_no_timer (cfg : Config) (now : Int) (s : State)
    (h : s.throttleHandle = none) : (listenerTail cfg now s).ctx = s.ctx := by
  unfold listenerTail feedThrottle
  dsimp only
  rw [if_pos h]
  split <;> rfl

/-- With no control hook, the listener is ingress bookkeeping followed by
the timing tail. -/
theorem listener_hookless (cfg : Config) (s : State) (now : Int) (a : Args)
    (hc : s.cancelled = false) (hn : cfg.controlFunc = none) :
    listener cfg s now a = listenerTail cfg now (listenerIngress s a) := by
  unfold listener listenerFuel
  rw [if_neg (by simp [hc])]
  dsimp only
  rw [hn]

/-- A hookless listener call on a state with no armed throttle timer bumps
the call count by one and stays in the same chain generation. -/
theorem listener_on_fresh (cfg : Config) (s : State) (now : Int) (a : Args)
    (hc : s.cancelled = false) (hn : cfg.controlFunc = none)
    (hth : s.throttleHandle = none) :
    (listener cfg s now a).ctx.callCount = s.ctx.callCount + 1 ∧
    (listener cfg s now a).ctx.gen = s.ctx.gen := by
  rw [listener_hookless cfg s now a hc hn]
  rw [listenerTail_ctx_of_no_timer cfg now (listenerIngress s a) hth]
  exact ⟨rfl, rfl⟩

/-- Claim C7: `cancel()` on a non-cancelled instance returns `true`,
cancels both outstanding timers and discards the chain without invoking
the callback for it — the log is unchanged and no later operation can ever
commit the discarded generation; a subsequent `resume()` returns `true`
and the next (hookless) listener event starts a brand-new chain whose
context has `callCount = 1`. -/
theorem c7_cancel_discards_resume_restarts (cfg : Config) (ops more : List Op)
    (now : Int) (a : Args)
    (hc : (run cfg ops).cancelled = false)
    (hn : cfg.controlFunc = none) :
    (cancel (run cfg ops)).1 = true ∧
    (cancel (run cfg ops)).2.throttleHandle = none ∧
    (cancel (run cfg ops)).2.maxDelayHandle = none ∧
    (cancel (run cfg ops)).2.log = (run cfg ops).log ∧
    (cancel (run cfg ops)).2.ctx.gen ≠ (run cfg ops).ctx.gen ∧
    (∀ r ∈ (runFrom cfg (cancel (run cfg ops)).2 more).log,
      r ∈ (run cfg ops).log ∨ r.gen ≠ (run cfg ops).ctx.gen) ∧
    (resume (cancel (run cfg ops)).2).1 = true ∧
    (listener cfg (resume (cancel (run cfg ops)).2).2 now a).ctx.callCount = 1 ∧
    (listener cfg (resume (cancel (run cfg ops)).2).2 now a).ctx.gen =
      (cancel (run cfg ops)).2.ctx.gen := by
  have inv := run_inv cfg ops
  have hceq : cancel (run cfg ops) =
      (true, reset { run cfg ops with cancelled := true }) := by
    unfold cancel
    rw [if_pos hc]
  have hc3 : (resume (cancel (run cfg ops)).2).2.cancelled = false := by
    rw [hceq]
    rfl
  have hth3 : (resume (cancel (run cfg ops)).2).2.throttleHandle = none := by
    rw [hceq]
    rfl
  have hcount := listener_on_fresh cfg (resume (cancel (run cfg ops)).2).2
    now a hc3 hn hth3
  refine ⟨by rw [hceq], by rw [hceq]; rfl, by rw [hceq]; rfl,
    by rw [hceq]; rfl, ?_, ?_, by rw [hceq]; rfl, ?_, ?_⟩
  · rw [hceq]
    exact (Nat.ne_of_lt inv.counter).symm
  · intro r hr
    have hs2 : Inv (cancel (run cfg ops)).2 := (cancel_sound inv).1
    obtain ⟨hle, pre, hl, hm⟩ := (runFrom_sound hs2 cfg more).2
    rw [hl] at hr
    rcases List.mem_append.1 hr with hpre | hold
    · right
      have hge := hm r hpre
      have hgt : (run cfg ops).ctx.gen < (cancel (run cfg ops)).2.ctx.gen := by
        rw [hceq]
        exact inv.counter
      omega
    · left
      rw [hceq] at hold
      exact hold
  · rw [hcount.1]
    have hz : (resume (cancel (run cfg ops)).2).2.ctx.callCount = 0 := by
      rw [hceq]
      rfl
    rw [hz]
  · rw [hcount.2]
    rw [hceq]
    rfl

/-- Witness for C7 on a concrete pending chain. -/
theorem c7_witness :
    (cancel (run ⟨100, some 500, none⟩ [.ev 0 [1]])).1 = true ∧
    (cancel (run ⟨100, some 500, none⟩ [.ev 0 [1]])).2.throttleHandle = none ∧
    (cancel (run ⟨100, some 500, none⟩ [.ev 0 [1]])).2.log =
      (run ⟨100, some 500, none⟩ [.ev 0 [1]]).log ∧
    (resume (cancel (run ⟨100, some 500, none⟩ [.ev 0 [1]])).2).1 = true ∧
    (listener ⟨100, some 500, none⟩
      (resume (cancel (run ⟨100, some 500, none⟩ [.ev 0 [1]])).2).2
      7 [2]).ctx.callCount = 1 := by
  have h := c7_cancel_discards_resume_restarts ⟨100, some 500, none⟩
    [.ev 0 [1]] [] 7 [2] (by decide) rfl
  exact ⟨h.1, h.2.1, h.2.2.2.1, h.2.2.2.2.2.2.1, h.2.2.2.2.2.2.2.1⟩

/-- Claim C8: with `maxDelay = 3000`, `throttleWait = 500` and events
every 400ms from t = 0, a commit fires at t = 3000 with
`trigger = debounce` although the throttle window never elapses; and in
general, a listener call that performs no commit leaves an armed max-delay
timer exactly as it was (armed once per chain, never re-armed until the
next chain begins). -/
theorem c8_max_delay_commit_and_single_arming :
    (simulate ⟨500, some 3000, none⟩
        [(0, [0]), (400, [1]), (800, [2]), (1200, [3]), (1600, [4]),
         (2000, [5]), (2400, [6]), (2800, [7])] 3100).log =
      [⟨0, 3000, .debounce, 8, some [7]⟩] ∧
    (∀ (cfg : Config) (s : State) (now : Int) (a : Args) (d : Int),
      s.maxDelayHandle = some d →
      (listener cfg s now a).log = s.log →
      (listener cfg s now a).maxDelayHandle = some d) := by
  constructor
  · decide
  · intro cfg s now a d hm hl
    exact listenerFuel_maxDelay_of_log_eq cfg 2 now a s d hm hl

/-- Witness for C8's arming clause: a second event of a chain leaves the
max-delay deadline armed at its original absolute time. -/
theorem c8_witness :
    (listener ⟨500, some 3000, none⟩
      (run ⟨500, some 3000, none⟩ [.ev 0 [1]]) 400 [2]).maxDelayHandle =
      some 3000 :=
  c8_max_delay_commit_and_single_arming.2 ⟨500, some 3000, none⟩
    (run ⟨500, some 3000, none⟩ [.ev 0 [1]]) 400 [2] 3000 (by decide)
    (by decide)

end ThrottledDebounce
